import Mathlib

/-!
Shallow embedding of the animation-control core of the motion repository
(`src/src/motion/utils/use-animation-controls.ts`) and of the DOM prop builder
(`src/src/render/dom/utils/build-html-props.ts`), with theorems settling the
specification's claims against it.

JS data is modelled as follows: objects used as string-keyed maps become
association lists in key insertion order; `undefined` becomes `Option.none`;
numbers become `Rat`; promise composition is made explicit as pass records
whose deferred phase (animation completions, then the `transitionEnd`
assignment) is settled separately.
-/

namespace Motion

/-- A tracked property value: the values reaching the value store are JS numbers or strings. -/
inductive TValue where
  | num (q : Rat)
  | str (s : String)
deriving DecidableEq, Repr, Inhabited

/-- A `Target`: a mapping from property name to value, as an association list in key
insertion order (a plain JS object). -/
abbrev Target := List (String × TValue)

/-- Association-list lookup, the JS property read: first binding wins. -/
def lookupA {α : Type} : List (String × α) → String → Option α
  | [], _ => none
  | kv :: rest, k => if kv.1 = k then some kv.2 else lookupA rest k

/-- Association-list update, the JS property write: replaces the binding in place when
the key exists, else appends a new binding. -/
def setA {α : Type} : List (String × α) → String → α → List (String × α)
  | [], k, v => [(k, v)]
  | kv :: rest, k, v => if kv.1 = k then (k, v) :: rest else kv :: setA rest k v

/-- The `Transition` fields this core reads: `delay` (forwarded to `getTransition`) and
the five child-coordination fields read in `animateVariant`; `none` models an absent
(`undefined`) field. -/
structure Transition where
  delay : Option Rat := none
  beforeChildren : Option Bool := none
  afterChildren : Option Bool := none
  delayChildren : Option Rat := none
  staggerChildren : Option Rat := none
  staggerDirection : Option Int := none
deriving DecidableEq, Repr, Inhabited

/-- A variant object `{ transition?, transitionEnd?, ...target }` (`TargetAndTransition`). -/
structure TargetAndTransition where
  target : Target := []
  transition : Option Transition := none
  transitionEnd : Option Target := none
deriving DecidableEq, Repr, Inhabited

/-- Component props as passed to a variant resolver function; `none` is `undefined`. -/
abbrev PropsV := List (String × TValue)

/-- A `Variant`: a static `TargetAndTransition` object, or a resolver function of the
owning component's props (`TargetResolver`). -/
inductive Variant where
  | obj (tt : TargetAndTransition)
  | resolver (f : Option PropsV → TargetAndTransition)

/-- The result shape of `resolveVariant`. -/
structure ResolvedVariant where
  target : Option Target
  transition : Option Transition
  transitionEnd : Option Target
deriving DecidableEq, Repr

/-- `resolveVariant` (source lines 32-50): an absent variant yields all-undefined; a
resolver function is applied to the `props` argument it is given; the result is split by
the destructuring `{ transition, transitionEnd, ...target }`, whose rest object always
exists (so `target` is `some`, possibly empty, for any present variant). -/
def resolveVariant (variant : Option Variant) (props : Option PropsV) : ResolvedVariant :=
  match variant with
  | none => { target := none, transition := none, transitionEnd := none }
  | some v =>
    let tt :=
      match v with
      | .obj t => t
      | .resolver f => f props
    { target := some tt.target, transition := tt.transition, transitionEnd := tt.transitionEnd }

/-- `AnimationDefinition = VariantLabels | TargetAndTransition | TargetResolver`;
`start` dispatches on an array, a string, or anything else (object or resolver). -/
inductive AnimationDefinition where
  | labels (ls : List String)
  | label (l : String)
  | variantDef (v : Variant)

/-- JS truthiness of an `AnimationDefinition` (`if (!override) ...`): only the empty
string label is falsy; arrays, objects and functions are always truthy. -/
def truthyDef : AnimationDefinition → Bool
  | .label l => l != ""
  | _ => true

/-- `AnimationOptions = { delay?: number, priority?: number }`; `none` is an absent field. -/
structure AnimationOptions where
  delay : Option Rat := none
  priority : Option Nat := none
deriving DecidableEq, Repr

/-- Modelled from the spec: the external capabilities this core consumes (spec section 6)
whose code lives outside `src/` - the animatable-string predicate `complex.test`
(style-value-types), the unit converter `unitConversion` (`dom/unit-type-conversion`,
given the value store, the target and the `transitionEnd` target; the opaque element
reference is dropped), and the live element style reader `styler(...).get`
(stylefire), used only to seed previously untracked properties. -/
structure Externals where
  complexTest : String → Bool
  unitConversion : List (String × TValue) → Target → Option Target → Target × Option Target
  domGet : String → TValue

/-- `isAnimatable` (source lines 26-27): numbers, and strings accepted by `complex.test`. -/
def isAnimatable (E : Externals) : TValue → Bool
  | .num _ => true
  | .str s => E.complexTest s

/-- The `{delay, ...transition}` object handed to `getTransition` (source lines 257-260):
the spread overrides the `delay` field only when the transition carries its own delay. -/
def mergedTransition (delay : Rat) (transition : Option Transition) : Transition :=
  match transition with
  | none => { delay := some delay }
  | some t => { t with delay := some (t.delay.getD delay) }

/-- One animation handed to a value's `control` primitive (source lines 256-267): the
key, the target value, and the derived transition options. -/
structure PendingAnim where
  key : String
  valueTarget : TValue
  options : Transition
deriving DecidableEq, Repr

/-- The observable outcome of one `animate` pass: the per-property animations handed to
`value.control` (pending until the external scheduler settles them), and the
`transitionEnd` target that the `Promise.all(animations).then(...)` continuation will
assign once every pending animation has settled. -/
structure AnimatePassInfo where
  pending : List PendingAnim := []
  transitionEnd : Option Target := none
deriving DecidableEq, Repr

/-- The mutable state of an `AnimationControls` instance. The `children` set is modelled
as absent (`this.children = undefined`, its state on construction): the
child-coordination arm is embedded separately as `animateChildren`. -/
structure ControlsState where
  props : Option PropsV := none
  values : List (String × TValue) := []
  variants : List (String × Variant) := []
  baseTarget : Target := []
  overrides : List (Option AnimationDefinition) := []
  defaultTransition : Option Transition := none
  isAnimating : List String := []

/-- `setProps` (source lines 68-70). -/
def setProps (s : ControlsState) (props : PropsV) : ControlsState :=
  { s with props := some props }

/-- `setVariants` (source lines 72-74): `if (variants) this.variants = variants`. -/
def setVariants (s : ControlsState) (variants : Option (List (String × Variant))) : ControlsState :=
  match variants with
  | some v => { s with variants := v }
  | none => s

/-- `setDefaultTransition` (source lines 76-78). -/
def setDefaultTransition (s : ControlsState) (transition : Option Transition) : ControlsState :=
  match transition with
  | some t => { s with defaultTransition := some t }
  | none => s

/-- `setValues` (source lines 80-95): assign each target key's value directly (creating
the value when untracked) and record it in `baseTarget`, skipping keys already in the
`isActive` set and adding each visited key to it. -/
def setValues (s : ControlsState) (target : Target) (isActive : List String) :
    ControlsState × List String :=
  target.foldl
    (fun acc kv =>
      if kv.1 ∈ acc.2 then acc
      else
        ({ acc.1 with
            values := setA acc.1.values kv.1 kv.2
            baseTarget := setA acc.1.baseTarget kv.1 kv.2 },
          kv.1 :: acc.2))
    (s, isActive)

/-- `checkForNewValues` (source lines 97-109): seed every target key missing from the
value store with the live element's computed style value, recording it in `baseTarget`. -/
def checkForNewValues (E : Externals) (s : ControlsState) (target : Target) : ControlsState :=
  let newValueKeys := (target.map Prod.fst).filter (fun key => (lookupA s.values key).isNone)
  if newValueKeys.length = 0 then s
  else
    newValueKeys.foldl
      (fun st key =>
        let domValue := E.domGet key
        { st with
            values := setA st.values key domValue
            baseTarget := setA st.baseTarget key domValue })
      s

/-- `getHighestPriority` (source lines 111-124): the index of the last occupied override
slot, 0 when none is occupied. -/
def getHighestPriority (overrides : List (Option AnimationDefinition)) : Nat :=
  (List.range overrides.length).foldl
    (fun highest i => if (overrides.getD i none).isSome then i else highest) 0

/-- `isHighestPriority` (source lines 203-211): scan the slots strictly above `priority`;
false iff one of them is occupied. -/
def isHighestPriority (overrides : List (Option AnimationDefinition)) (priority : Nat) : Bool :=
  (overrides.drop (priority + 1)).all (fun o => o.isNone)

/-- The JS sparse-array write `this.overrides[priority] = d`: pads with `undefined` when
the index lies beyond the current length. -/
def setOverride (overrides : List (Option AnimationDefinition)) (priority : Nat)
    (d : Option AnimationDefinition) : List (Option AnimationDefinition) :=
  (overrides ++ List.replicate (priority + 1 - overrides.length) none).set priority d

/-- `setPriorityAnimation` (source lines 199-201). -/
def setPriorityAnimation (s : ControlsState) (definition : AnimationDefinition)
    (priority : Nat) : ControlsState :=
  { s with overrides := setOverride s.overrides priority (some definition) }

/-- `resetIsAnimating` (source lines 375-381) for a controller without children. -/
def resetIsAnimating (s : ControlsState) : ControlsState :=
  { s with isAnimating := [] }

/-- The callback of the `Object.keys(target).reduce` in `animate` (source lines 238-277):
skip keys already animating in this pass or without a tracked value; at priority 0 record
the target value as the new base-target resting value; hand animatable values to
`value.control` (collected in the accumulator) and set non-animatable values directly;
finally mark the key as animating. -/
def animReduce (E : Externals) (delay : Rat) (priority : Nat) (transition : Option Transition)
    (acc : ControlsState × List PendingAnim) (kv : String × TValue) :
    ControlsState × List PendingAnim :=
  let st := acc.1
  let key := kv.1
  if key ∈ st.isAnimating ∨ lookupA st.values key = none then acc
  else
    let valueTarget := kv.2
    let st1 :=
      if priority = 0 then { st with baseTarget := setA st.baseTarget key valueTarget } else st
    let next :=
      if isAnimatable E valueTarget then
        (st1, acc.2 ++ [{ key := key, valueTarget := valueTarget,
                          options := mergedTransition delay transition }])
      else
        ({ st1 with values := setA st1.values key valueTarget }, acc.2)
    ({ next.1 with isAnimating := key :: next.1.isAnimating }, next.2)

/-- `animate` (source lines 213-284): resolve the definition (the source passes no props
here), return an immediately-resolved empty pass when there is no target, seed new
values, convert units, fall back to the default transition when the variant specifies
none, then run the reduce; the `transitionEnd` assignment is deferred behind the pass's
pending animations (source lines 279-284). -/
def animate (E : Externals) (s : ControlsState) (animationDefinition : Option Variant)
    (opts : AnimationOptions) : ControlsState × AnimatePassInfo :=
  let r := resolveVariant animationDefinition none
  match r.target with
  | none => (s, {})
  | some target0 =>
    let delay := opts.delay.getD 0
    let priority := opts.priority.getD 0
    let s1 := checkForNewValues E s target0
    let conv := E.unitConversion s1.values target0 r.transitionEnd
    let transition :=
      match r.transition with
      | some t => some t
      | none => s1.defaultTransition
    let folded := conv.1.foldl (animReduce E delay priority transition) (s1, [])
    (folded.1, { pending := folded.2, transitionEnd := conv.2 })

/-- `animateVariant` (source lines 296-344) for a controller without children: the
children arm resolves immediately, the `beforeChildren`/`afterChildren` flags stay false
(the flag block is guarded by `variant && this.children`), and the method reduces to
animating the looked-up variant; an absent label resolves as a no-op. -/
def animateVariant (E : Externals) (s : ControlsState) (variantLabel : String)
    (opts : AnimationOptions) : ControlsState × AnimatePassInfo :=
  match lookupA s.variants variantLabel with
  | none => (s, {})
  | some variant => animate E s (some variant) opts

/-- `animateVariantLabels` (source lines 286-294): animate the reversed label list,
aggregating the per-label passes. -/
def animateVariantLabels (E : Externals) (s : ControlsState) (variantLabels : List String)
    (opts : AnimationOptions) : ControlsState × List AnimatePassInfo :=
  variantLabels.reverse.foldl
    (fun acc label =>
      let r := animateVariant E acc.1 label opts
      (r.1, acc.2 ++ [r.2]))
    (s, [])

/-- `start` (source lines 174-197): record the definition at `opts.priority || 0`; when a
priority was supplied and a strictly higher slot is occupied, return an already-resolved
result (no passes); otherwise clear the isAnimating guard set and dispatch on the
definition's shape. -/
def start (E : Externals) (s : ControlsState) (definition : AnimationDefinition)
    (opts : AnimationOptions) : ControlsState × List AnimatePassInfo :=
  let s0 := setPriorityAnimation s definition (opts.priority.getD 0)
  if opts.priority.isSome = true ∧ isHighestPriority s0.overrides (opts.priority.getD 0) = false then
    (s0, [])
  else
    let s1 := resetIsAnimating s0
    match definition with
    | .labels ls => animateVariantLabels E s1 ls opts
    | .label l =>
      let r := animateVariant E s1 l opts
      (r.1, [r.2])
    | .variantDef v =>
      let r := animate E s1 (some v) opts
      (r.1, [r.2])

/-- `clearOverride` (source lines 126-142): a falsy slot is a no-op; otherwise unset the
slot, recompute the highest occupied priority, clear the isAnimating guard; when a
strictly higher override remains occupied, return; otherwise re-start the highest
remaining override (when occupied and truthy) at its priority and then animate toward
the base target. -/
def clearOverride (E : Externals) (s : ControlsState) (overrideIndex : Nat) :
    ControlsState × List AnimatePassInfo :=
  match s.overrides.getD overrideIndex none with
  | none => (s, [])
  | some ov =>
    if truthyDef ov = false then (s, [])
    else
      let s1 := { s with overrides := setOverride s.overrides overrideIndex none }
      let highest := getHighestPriority s1.overrides
      let s2 := resetIsAnimating s1
      if overrideIndex < highest then (s2, [])
      else
        let r1 :=
          match s1.overrides.getD highest none with
          | some highestOverride =>
            if truthyDef highestOverride then
              start E s2 highestOverride { priority := some highest }
            else (s2, [])
          | none => (s2, [])
        let r2 := animate E r1.1 (some (.obj { target := r1.1.baseTarget })) {}
        (r2.1, r1.2 ++ [r2.2])

/-- Modelled from the spec: the external controllable-value primitive settles each
controlled animation at its handed target value (spec sections 5-6: completion signals
resolve when the per-property animations settle); afterwards the pass's `transitionEnd`
target is assigned directly via `setValues` (source lines 279-284). -/
def settleAnims (s : ControlsState) (pending : List PendingAnim) : ControlsState :=
  pending.foldl (fun st a => { st with values := setA st.values a.key a.valueTarget }) s

/-- Settle one pass: let every pending controlled animation land on its target, then run
the `then` continuation, which assigns the `transitionEnd` values when present. -/
def settlePass (s : ControlsState) (p : AnimatePassInfo) : ControlsState :=
  let s1 := settleAnims s p.pending
  match p.transitionEnd with
  | some te => (setValues s1 te []).1
  | none => s1

/-- Settle every pass of a `start` result, in order. -/
def settleAll (s : ControlsState) (passes : List AnimatePassInfo) : ControlsState :=
  passes.foldl settlePass s

/-- An observable event in the deferred phase of an `animate` pass. -/
inductive PassEvent where
  | settled (key : String)
  | assignEnd (key : String) (v : TValue)
deriving DecidableEq, Repr

/-- The deferred phase of a pass as a timeline: the external scheduler settles the pass's
controlled animations in some order (`completions`), and only then does the
`Promise.all(animations).then(...)` continuation (source lines 279-284) assign the
`transitionEnd` values. -/
def passTimeline (p : AnimatePassInfo) (completions : List PendingAnim) : List PassEvent :=
  completions.map (fun a => PassEvent.settled a.key) ++
    (match p.transitionEnd with
     | some te => te.map (fun kv => PassEvent.assignEnd kv.1 kv.2)
     | none => [])

/-- A call propagated to a registered child
(`childControls.animateVariant(variantLabel, { priority, delay })`, source lines
364-370); children are identified by their zero-based registration index. -/
structure ChildCall where
  child : Nat
  label : String
  priority : Nat
  delay : Rat
deriving DecidableEq, Repr

/-- `animateChildren` (source lines 346-373), embedded as the list of calls handed to the
registered children (in registration order, `Array.from(this.children)`): the stagger
delay for child index `i` is `i * staggerChildren` when `staggerDirection === 1`, else
`maxStaggerDuration - i * staggerChildren`, added to `delayChildren`. -/
def animateChildren (children : Option (List Nat)) (variantLabel : String)
    (delayChildren : Rat) (staggerChildren : Rat) (staggerDirection : Int)
    (priority : Nat) : List ChildCall :=
  match children with
  | none => []
  | some cs =>
    let maxStaggerDuration : Rat := ((cs.length : Rat) - 1) * staggerChildren
    let generateStaggerDuration : Nat → Rat :=
      if staggerDirection = 1 then fun i => (i : Rat) * staggerChildren
      else fun i => maxStaggerDuration - (i : Rat) * staggerChildren
    cs.enum.map
      (fun ic =>
        { child := ic.2, label := variantLabel, priority := priority,
          delay := delayChildren + generateStaggerDuration ic.1 })

/-- The JS object-spread merge `{...a, ...b}`: later keys override earlier ones. -/
def mergeA (a b : List (String × TValue)) : List (String × TValue) :=
  b.foldl (fun m kv => setA m kv.1 kv.2) a

/-- Modelled from the spec: `HTMLVisualElement` (repository code not under `src/`) in its
post-build state - `clean()` and `build()` recompute the element's `reactStyle`, `style`
and `vars`, and `buildHTMLProps` only reads these three fields after calling both, so the
embedding takes the element with those fields already built. -/
structure HTMLVisualElement where
  reactStyle : List (String × TValue) := []
  style : List (String × TValue) := []
  vars : List (String × TValue) := []

/-- The props object returned by `buildHTMLProps`; an absent `draggable` field is `none`. -/
structure HTMLProps where
  style : List (String × TValue)
  draggable : Option Bool := none
deriving DecidableEq, Repr

/-- `buildHTMLProps` (build-html-props.ts lines 4-32): merge `reactStyle`, `style` and
`vars` into the returned style object; a truthy `drag` prop (`!!drag`) additionally sets
`style.userSelect = "none"` and `draggable = false`. -/
def buildHTMLProps (visualElement : HTMLVisualElement) (drag : Bool) : HTMLProps :=
  let htmlProps : HTMLProps :=
    { style := mergeA (mergeA visualElement.reactStyle visualElement.style) visualElement.vars }
  if drag then
    { htmlProps with
        style := setA htmlProps.style "userSelect" (TValue.str "none")
        draggable := some false }
  else htmlProps

/-- A concrete instantiation of the external capabilities, used to evaluate the model on
closed inputs: no complex animatable strings, identity unit conversion, and a zero
computed-style reader. -/
def idExternals : Externals :=
  { complexTest := fun _ => false
    unitConversion := fun _ t te => (t, te)
    domGet := fun _ => TValue.num 0 }

/-! ### Association-list lemmas -/

theorem lookupA_setA {α : Type} (m : List (String × α)) (k k' : String) (v : α) :
    lookupA (setA m k v) k' = if k' = k then some v else lookupA m k' := by
  induction m with
  | nil =>
    by_cases h : k' = k
    · simp [setA, lookupA, h]
    · simp [setA, lookupA, h, Ne.symm h]
  | cons kv rest ih =>
    by_cases h1 : kv.1 = k
    · by_cases h2 : k' = k
      · simp [setA, lookupA, h1, h2]
      · simp [setA, lookupA, h1, h2, Ne.symm h2, h1 ▸ Ne.symm h2]
    · by_cases h3 : kv.1 = k'
      · simp [setA, lookupA, h1, h3, h3 ▸ h1]
      · simp [setA, lookupA, h1, h3, ih]

theorem lookupA_setA_self {α : Type} (m : List (String × α)) (k : String) (v : α) :
    lookupA (setA m k v) k = some v := by
  simp [lookupA_setA]

theorem lookupA_setA_ne {α : Type} (m : List (String × α)) {k k' : String} (v : α)
    (h : k' ≠ k) : lookupA (setA m k v) k' = lookupA m k' := by
  simp [lookupA_setA, h]

theorem isSome_lookupA_setA {α : Type} (m : List (String × α)) (k k' : String) (v : α)
    (h : (lookupA m k').isSome = true) : (lookupA (setA m k v) k').isSome = true := by
  rw [lookupA_setA]
  by_cases hk : k' = k <;> simp [hk, h]

theorem mem_keys_of_lookupA {α : Type} (m : List (String × α)) (k : String) (v : α)
    (h : lookupA m k = some v) : k ∈ m.map Prod.fst := by
  induction m with
  | nil => simp [lookupA] at h
  | cons kv rest ih =>
    by_cases h1 : kv.1 = k
    · simp [h1]
    · simp only [lookupA, h1, if_false] at h
      simp [ih h]

/-! ### Override-stack lemmas -/

theorem drop_set_of_lt {α : Type} (l : List α) (i j : Nat) (a : α) (h : i < j) :
    (l.set i a).drop j = l.drop j := by
  induction l generalizing i j with
  | nil => simp
  | cons hd tl ih =>
    cases i with
    | zero =>
      cases j with
      | zero => omega
      | succ j' => simp [List.set, List.drop_succ_cons]
    | succ i' =>
      cases j with
      | zero => omega
      | succ j' => simpa [List.set, List.drop_succ_cons] using ih i' j' (by omega)

theorem isHighestPriority_setOverride (ovr : List (Option AnimationDefinition))
    (p i : Nat) (d : Option AnimationDefinition) (h : i ≤ p) :
    isHighestPriority (setOverride ovr i d) p = isHighestPriority ovr p := by
  unfold isHighestPriority setOverride
  by_cases hlen : i < ovr.length
  · have hrep : i + 1 - ovr.length = 0 := by omega
    rw [hrep]
    simp only [List.replicate_zero, List.append_nil]
    rw [drop_set_of_lt _ _ _ _ (by omega)]
  · rw [drop_set_of_lt _ _ _ _ (by omega)]
    have h1 : (ovr ++ List.replicate (i + 1 - ovr.length) none).drop (p + 1) = [] := by
      apply List.drop_eq_nil_of_le
      simp only [List.length_append, List.length_replicate]
      omega
    have h2 : ovr.drop (p + 1) = [] := by
      apply List.drop_eq_nil_of_le
      omega
    rw [h1, h2]

theorem isHighestPriority_eq_true_iff (ovr : List (Option AnimationDefinition)) (p : Nat) :
    isHighestPriority ovr p = true ↔ ∀ i, p < i → ovr.getD i none = none := by
  unfold isHighestPriority
  rw [List.all_eq_true]
  constructor
  · intro h i hpi
    by_cases hi : i < ovr.length
    · have hidx : i - (p + 1) < (ovr.drop (p + 1)).length := by
        rw [List.length_drop]; omega
      have heq : p + 1 + (i - (p + 1)) = i := by omega
      have hq : (ovr.drop (p + 1))[i - (p + 1)]? = ovr[i]? := by
        rw [List.getElem?_drop, heq]
      cases hsome : (ovr.drop (p + 1))[i - (p + 1)]? with
      | none =>
        rw [List.getElem?_eq_none_iff] at hsome
        omega
      | some o =>
        have hmem : o ∈ ovr.drop (p + 1) := by
          obtain ⟨hlt, hval⟩ := List.getElem?_eq_some_iff.mp hsome
          exact hval ▸ List.getElem_mem hlt
        have hono := h o hmem
        rw [hq] at hsome
        rw [List.getD_eq_getElem?_getD, hsome]
        simpa using Option.isNone_iff_eq_none.mp hono
    · rw [List.getD_eq_getElem?_getD, List.getElem?_eq_none (by omega)]
      rfl
  · intro h o ho
    obtain ⟨j, hjo⟩ := List.mem_iff_getElem?.mp ho
    have hjo2 : ovr[p + 1 + j]? = some o := by
      rw [← List.getElem?_drop]
      exact hjo
    have h2 := h (p + 1 + j) (by omega)
    rw [List.getD_eq_getElem?_getD, hjo2] at h2
    simp only [Option.getD_some] at h2
    rw [h2]
    rfl

theorem isHighestPriority_eq_false_iff (ovr : List (Option AnimationDefinition)) (p : Nat) :
    isHighestPriority ovr p = false ↔ ∃ i, p < i ∧ ovr.getD i none ≠ none := by
  have htrue := isHighestPriority_eq_true_iff ovr p
  constructor
  · intro hf
    by_contra hno
    push_neg at hno
    exact Bool.noConfusion ((htrue.mpr hno).symm.trans hf)
  · rintro ⟨i, hpi, hne⟩
    cases hb : isHighestPriority ovr p
    · rfl
    · exact absurd (htrue.mp hb i hpi) hne

theorem getHighestPriority_eq_zero (ovr : List (Option AnimationDefinition))
    (h : ∀ j, ovr.getD j none = none) : getHighestPriority ovr = 0 := by
  unfold getHighestPriority
  have haux : ∀ (L : List Nat) (acc : Nat),
      L.foldl (fun highest i => if (ovr.getD i none).isSome then i else highest) acc = acc := by
    intro L
    induction L with
    | nil => intro acc; rfl
    | cons hd tl ih =>
      intro acc
      rw [List.foldl_cons, if_neg]
      · exact ih acc
      · rw [h hd]
        simp
  exact haux _ 0

/-! ### checkForNewValues lemmas -/

theorem checkForNewValues_isAnimating (E : Externals) (s : ControlsState) (t : Target) :
    (checkForNewValues E s t).isAnimating = s.isAnimating := by
  unfold checkForNewValues
  dsimp only
  split
  · rfl
  · have haux : ∀ (L : List String) (st : ControlsState),
        (L.foldl (fun st key =>
          { st with values := setA st.values key (E.domGet key),
                    baseTarget := setA st.baseTarget key (E.domGet key) }) st).isAnimating =
          st.isAnimating := by
      intro L
      induction L with
      | nil => intro st; rfl
      | cons hd tl ih => intro st; exact ih _
    exact haux _ s

theorem checkForNewValues_defaultTransition (E : Externals) (s : ControlsState) (t : Target) :
    (checkForNewValues E s t).defaultTransition = s.defaultTransition := by
  unfold checkForNewValues
  dsimp only
  split
  · rfl
  · have haux : ∀ (L : List String) (st : ControlsState),
        (L.foldl (fun st key =>
          { st with values := setA st.values key (E.domGet key),
                    baseTarget := setA st.baseTarget key (E.domGet key) }) st).defaultTransition =
          st.defaultTransition := by
      intro L
      induction L with
      | nil => intro st; rfl
      | cons hd tl ih => intro st; exact ih _
    exact haux _ s

theorem isSome_values_checkForNewValues (E : Externals) (s : ControlsState) (t : Target)
    (k : String) (h : k ∈ t.map Prod.fst ∨ (lookupA s.values k).isSome = true) :
    (lookupA (checkForNewValues E s t).values k).isSome = true := by
  have hmono : ∀ (L : List String) (st : ControlsState),
      (lookupA st.values k).isSome = true →
      (lookupA ((L.foldl (fun st key =>
        { st with values := setA st.values key (E.domGet key),
                  baseTarget := setA st.baseTarget key (E.domGet key) }) st)).values k).isSome =
        true := by
    intro L
    induction L with
    | nil => intro st hst; exact hst
    | cons hd tl ih => intro st hst; exact ih _ (isSome_lookupA_setA _ _ _ _ hst)
  have hhit : ∀ (L : List String) (st : ControlsState), k ∈ L →
      (lookupA ((L.foldl (fun st key =>
        { st with values := setA st.values key (E.domGet key),
                  baseTarget := setA st.baseTarget key (E.domGet key) }) st)).values k).isSome =
        true := by
    intro L
    induction L with
    | nil => intro st hst; cases hst
    | cons hd tl ih =>
      intro st hst
      rcases List.mem_cons.mp hst with hk | hk
      · subst hk
        exact hmono tl _ (by rw [lookupA_setA_self]; rfl)
      · exact ih _ hk
  unfold checkForNewValues
  dsimp only
  split
  · rename_i hlen
    rcases h with hk | hk
    · by_cases hv : (lookupA s.values k).isSome = true
      · exact hv
      · exfalso
        have hmem : k ∈ (t.map Prod.fst).filter (fun key => (lookupA s.values key).isNone) := by
          rw [List.mem_filter]
          refine ⟨hk, ?_⟩
          show (lookupA s.values k).isNone = true
          cases hopt : lookupA s.values k with
          | none => rfl
          | some w => exact absurd (by rw [hopt]; rfl) hv
        rw [List.length_eq_zero.mp hlen] at hmem
        cases hmem
    · exact hk
  · rcases h with hk | hk
    · by_cases hv : (lookupA s.values k).isSome = true
      · exact hmono _ _ hv
      · apply hhit
        rw [List.mem_filter]
        refine ⟨hk, ?_⟩
        show (lookupA s.values k).isNone = true
        cases hopt : lookupA s.values k with
        | none => rfl
        | some w => exact absurd (by rw [hopt]; rfl) hv
    · exact hmono _ _ hk

/-! ### animReduce fold lemmas -/

theorem animReduce_ne (E : Externals) (dl : Rat) (pr : Nat) (tr : Option Transition)
    (acc : ControlsState × List PendingAnim) (kv : String × TValue) (k : String)
    (hne : kv.1 ≠ k) :
    ((k ∈ (animReduce E dl pr tr acc kv).1.isAnimating ↔ k ∈ acc.1.isAnimating) ∧
      lookupA (animReduce E dl pr tr acc kv).1.values k = lookupA acc.1.values k) ∧
    lookupA (animReduce E dl pr tr acc kv).1.baseTarget k = lookupA acc.1.baseTarget k ∧
    (animReduce E dl pr tr acc kv).2.filter (fun a => a.key == k) =
      acc.2.filter (fun a => a.key == k) := by
  unfold animReduce
  by_cases hskip : kv.1 ∈ acc.1.isAnimating ∨ lookupA acc.1.values kv.1 = none
  · simp [hskip]
  · simp only [if_neg hskip]
    by_cases hpr : pr = 0 <;>
      by_cases han : isAnimatable E kv.2 = true <;>
        simp [hpr, han, lookupA_setA_ne _ _ (Ne.symm hne), List.filter_append, hne,
          List.mem_cons, Ne.symm hne]

theorem animReduce_skipInv (E : Externals) (dl : Rat) (pr : Nat) (tr : Option Transition)
    (acc : ControlsState × List PendingAnim) (kv : String × TValue) (k : String)
    (hk : k ∈ acc.1.isAnimating) :
    (k ∈ (animReduce E dl pr tr acc kv).1.isAnimating ∧
      lookupA (animReduce E dl pr tr acc kv).1.values k = lookupA acc.1.values k) ∧
    lookupA (animReduce E dl pr tr acc kv).1.baseTarget k = lookupA acc.1.baseTarget k ∧
    (animReduce E dl pr tr acc kv).2.filter (fun a => a.key == k) =
      acc.2.filter (fun a => a.key == k) := by
  by_cases hne : kv.1 = k
  · subst hne
    have hskip : kv.1 ∈ acc.1.isAnimating ∨ lookupA acc.1.values kv.1 = none := Or.inl hk
    unfold animReduce
    simp [hskip, hk]
  · have h := animReduce_ne E dl pr tr acc kv k hne
    exact ⟨⟨h.1.1.mpr hk, h.1.2⟩, h.2⟩

theorem animFold_inv (E : Externals) (dl : Rat) (pr : Nat) (tr : Option Transition)
    (k : String) :
    ∀ (t : Target) (acc : ControlsState × List PendingAnim), k ∈ acc.1.isAnimating →
      (k ∈ (t.foldl (animReduce E dl pr tr) acc).1.isAnimating ∧
        lookupA (t.foldl (animReduce E dl pr tr) acc).1.values k = lookupA acc.1.values k) ∧
      lookupA (t.foldl (animReduce E dl pr tr) acc).1.baseTarget k =
        lookupA acc.1.baseTarget k ∧
      (t.foldl (animReduce E dl pr tr) acc).2.filter (fun a => a.key == k) =
        acc.2.filter (fun a => a.key == k) := by
  intro t
  induction t with
  | nil => intro acc hk; exact ⟨⟨hk, rfl⟩, rfl, rfl⟩
  | cons kv rest ih =>
    intro acc hk
    have h1 := animReduce_skipInv E dl pr tr acc kv k hk
    have h2 := ih (animReduce E dl pr tr acc kv) h1.1.1
    rw [List.foldl_cons]
    exact ⟨⟨h2.1.1, h2.1.2.trans h1.1.2⟩, h2.2.1.trans h1.2.1, h2.2.2.trans h1.2.2⟩

theorem animReduce_process (E : Externals) (dl : Rat) (pr : Nat) (tr : Option Transition)
    (acc : ControlsState × List PendingAnim) (kv : String × TValue)
    (hk : kv.1 ∉ acc.1.isAnimating) (hv : lookupA acc.1.values kv.1 ≠ none) :
    (kv.1 ∈ (animReduce E dl pr tr acc kv).1.isAnimating ∧
      (pr = 0 → lookupA (animReduce E dl pr tr acc kv).1.baseTarget kv.1 = some kv.2)) ∧
    (isAnimatable E kv.2 = true →
      (animReduce E dl pr tr acc kv).2 =
        acc.2 ++ [{ key := kv.1, valueTarget := kv.2, options := mergedTransition dl tr }] ∧
      lookupA (animReduce E dl pr tr acc kv).1.values kv.1 = lookupA acc.1.values kv.1) ∧
    (isAnimatable E kv.2 = false →
      (animReduce E dl pr tr acc kv).2 = acc.2 ∧
      lookupA (animReduce E dl pr tr acc kv).1.values kv.1 = some kv.2) := by
  have hskip : ¬(kv.1 ∈ acc.1.isAnimating ∨ lookupA acc.1.values kv.1 = none) := by
    rintro (h | h)
    · exact hk h
    · exact hv h
  unfold animReduce
  simp only [if_neg hskip]
  by_cases hpr : pr = 0 <;>
    by_cases han : isAnimatable E kv.2 = true <;>
      simp [hpr, han, lookupA_setA_self]

theorem animFold_process (E : Externals) (dl : Rat) (pr : Nat) (tr : Option Transition)
    (k : String) (v : TValue) :
    ∀ (t : Target) (st0 : ControlsState) (l0 : List PendingAnim),
      lookupA t k = some v → k ∉ st0.isAnimating → lookupA st0.values k ≠ none →
      ((pr = 0 →
          lookupA (t.foldl (animReduce E dl pr tr) (st0, l0)).1.baseTarget k = some v) ∧
        (isAnimatable E v = true →
          (t.foldl (animReduce E dl pr tr) (st0, l0)).2.filter (fun a => a.key == k) =
            l0.filter (fun a => a.key == k) ++
              [{ key := k, valueTarget := v, options := mergedTransition dl tr }] ∧
          lookupA (t.foldl (animReduce E dl pr tr) (st0, l0)).1.values k =
            lookupA st0.values k)) ∧
      (isAnimatable E v = false →
        (t.foldl (animReduce E dl pr tr) (st0, l0)).2.filter (fun a => a.key == k) =
          l0.filter (fun a => a.key == k) ∧
        lookupA (t.foldl (animReduce E dl pr tr) (st0, l0)).1.values k = some v) := by
  intro t
  induction t with
  | nil => intro st0 l0 hlk; cases hlk
  | cons kv rest ih =>
    intro st0 l0 hlk hka hvs
    by_cases h1 : kv.1 = k
    · subst h1
      have hv : kv.2 = v := by
        rw [lookupA, if_pos rfl] at hlk
        exact Option.some.inj hlk
      subst hv
      have hstep := animReduce_process E dl pr tr (st0, l0) kv hka hvs
      have hinv := animFold_inv E dl pr tr kv.1 rest (animReduce E dl pr tr (st0, l0) kv)
        hstep.1.1
      rw [List.foldl_cons]
      refine ⟨⟨fun hpr => ?_, fun han => ⟨?_, ?_⟩⟩, fun han => ⟨?_, ?_⟩⟩
      · rw [hinv.2.1]
        exact hstep.1.2 hpr
      · rw [hinv.2.2, (hstep.2.1 han).1, List.filter_append]
        simp
      · rw [hinv.1.2, (hstep.2.1 han).2]
      · rw [hinv.2.2, (hstep.2.2 han).1]
      · rw [hinv.1.2]
        exact (hstep.2.2 han).2
    · have hrest : lookupA rest k = some v := by
        rw [lookupA, if_neg h1] at hlk
        exact hlk
      have hne := animReduce_ne E dl pr tr (st0, l0) kv k h1
      have hka1 : k ∉ (animReduce E dl pr tr (st0, l0) kv).1.isAnimating :=
        fun hm => hka (hne.1.1.mp hm)
      have hvs1 : lookupA (animReduce E dl pr tr (st0, l0) kv).1.values k ≠ none := by
        rw [hne.1.2]
        exact hvs
      have hih := ih (animReduce E dl pr tr (st0, l0) kv).1
        (animReduce E dl pr tr (st0, l0) kv).2 hrest hka1 hvs1
      rw [show ((animReduce E dl pr tr (st0, l0) kv).1,
            (animReduce E dl pr tr (st0, l0) kv).2) = animReduce E dl pr tr (st0, l0) kv
          from rfl] at hih
      rw [List.foldl_cons]
      refine ⟨⟨fun hpr => hih.1.1 hpr, fun han => ?_⟩, fun han => ?_⟩
      · refine ⟨?_, ?_⟩
        · rw [(hih.1.2 han).1, hne.2.2]
        · rw [(hih.1.2 han).2, hne.1.2]
      · refine ⟨?_, ?_⟩
        · rw [(hih.2 han).1, hne.2.2]
        · exact (hih.2 han).2

/-! ### Settling lemmas -/

theorem settleAnims_values_of_no_key (k : String) :
    ∀ (pending : List PendingAnim) (s : ControlsState),
      (∀ a ∈ pending, a.key ≠ k) →
      lookupA (settleAnims s pending).values k = lookupA s.values k := by
  intro pending
  induction pending with
  | nil => intro s _; rfl
  | cons a rest ih =>
    intro s h
    unfold settleAnims
    rw [List.foldl_cons]
    have hstep := ih { s with values := setA s.values a.key a.valueTarget }
      (fun b hb => h b (List.mem_cons_of_mem a hb))
    unfold settleAnims at hstep
    rw [hstep]
    exact lookupA_setA_ne _ _ (fun he => h a (List.mem_cons_self a rest) he.symm)

theorem settleAnims_values_of_filter_single (k : String) (e : PendingAnim) :
    ∀ (pending : List PendingAnim) (s : ControlsState),
      pending.filter (fun a => a.key == k) = [e] →
      lookupA (settleAnims s pending).values k = some e.valueTarget := by
  intro pending
  induction pending with
  | nil => intro s h; cases h
  | cons a rest ih =>
    intro s h
    rw [List.filter_cons] at h
    by_cases hak : a.key = k
    · rw [if_pos (by simp [hak])] at h
      have hae : a = e := (List.cons.inj h).1
      have hrest : rest.filter (fun a => a.key == k) = [] := (List.cons.inj h).2
      have hnone : ∀ b ∈ rest, b.key ≠ k := by
        intro b hb hbk
        have := List.filter_eq_nil_iff.mp hrest b hb
        simp [hbk] at this
      unfold settleAnims
      rw [List.foldl_cons]
      have hstep := settleAnims_values_of_no_key k rest
        { s with values := setA s.values a.key a.valueTarget } hnone
      unfold settleAnims at hstep
      rw [hstep, ← hak, lookupA_setA_self, hae]
    · rw [if_neg (by simp [hak])] at h
      unfold settleAnims
      rw [List.foldl_cons]
      have := ih { s with values := setA s.values a.key a.valueTarget } h
      unfold settleAnims at this
      rw [this]

/-! ### Claim theorems -/

/-- C6: for every override-stack configuration and priority index `p`,
`isHighestPriority(p)` returns false if and only if some slot with index strictly greater
than `p` is occupied, and writing any slot at index `p` or lower never changes the
result. -/
theorem claim6_isHighestPriority_scans_only_higher :
    (∀ (ovr : List (Option AnimationDefinition)) (p : Nat),
      isHighestPriority ovr p = false ↔ ∃ i, p < i ∧ ovr.getD i none ≠ none) ∧
    (∀ (ovr : List (Option AnimationDefinition)) (p i : Nat) (d : Option AnimationDefinition),
      i ≤ p → isHighestPriority (setOverride ovr i d) p = isHighestPriority ovr p) :=
  ⟨isHighestPriority_eq_false_iff,
    fun ovr p i d h => isHighestPriority_setOverride ovr p i d h⟩

/-- Witness for C6 at a concrete stack: slot 1 occupied makes priority 0 non-highest,
and rewriting slot 1 itself does not change the answer at priority 1. -/
theorem claim6_isHighestPriority_scans_only_higher_witness :
    (isHighestPriority [some (AnimationDefinition.label "a"),
        some (AnimationDefinition.label "b")] 0 = false ↔
      ∃ i, 0 < i ∧
        [some (AnimationDefinition.label "a"),
          some (AnimationDefinition.label "b")].getD i none ≠ none) ∧
    isHighestPriority
        (setOverride [some (AnimationDefinition.label "a"),
          some (AnimationDefinition.label "b")] 1 none) 1 =
      isHighestPriority [some (AnimationDefinition.label "a"),
        some (AnimationDefinition.label "b")] 1 :=
  ⟨claim6_isHighestPriority_scans_only_higher.1 _ 0,
    claim6_isHighestPriority_scans_only_higher.2 _ 1 1 none (le_refl 1)⟩

/-- C4: for `N` registered children and stagger parameter `s`, the delay handed to the
child at registration index `i` is `delayChildren + i*s` when `staggerDirection` is 1
(forward) and `delayChildren + ((N-1)*s - i*s)` when reversed, and the reversed delay of
child `i` equals the forward delay of child `N-1-i`. -/
theorem claim4_stagger_delay_formula :
    ∀ (cs : List Nat) (label : String) (d s : Rat) (p : Nat) (i : Nat), i < cs.length →
      ((animateChildren (some cs) label d s 1 p)[i]?).map ChildCall.delay =
        some (d + (i : Rat) * s) ∧
      ((animateChildren (some cs) label d s (-1) p)[i]?).map ChildCall.delay =
        some (d + (((cs.length : Rat) - 1) * s - (i : Rat) * s)) ∧
      ((animateChildren (some cs) label d s (-1) p)[i]?).map ChildCall.delay =
        ((animateChildren (some cs) label d s 1 p)[cs.length - 1 - i]?).map ChildCall.delay := by
  intro cs label d s p i hi
  have hfwd : ∀ (j : Nat), j < cs.length →
      ((animateChildren (some cs) label d s 1 p)[j]?).map ChildCall.delay =
        some (d + (j : Rat) * s) := by
    intro j hj
    unfold animateChildren
    rw [List.getElem?_map, List.getElem?_enum, List.getElem?_eq_getElem hj]
    simp
  have hrev : ((animateChildren (some cs) label d s (-1) p)[i]?).map ChildCall.delay =
      some (d + (((cs.length : Rat) - 1) * s - (i : Rat) * s)) := by
    unfold animateChildren
    rw [List.getElem?_map, List.getElem?_enum, List.getElem?_eq_getElem hi]
    have hne : ((-1 : Int) = 1) = False := by simp
    simp [hne]
  refine ⟨hfwd i hi, hrev, ?_⟩
  rw [hrev, hfwd (cs.length - 1 - i) (by omega)]
  have hcast : ((cs.length - 1 - i : Nat) : Rat) = (cs.length : Rat) - 1 - (i : Rat) := by
    have h1 : (1 : Nat) ≤ cs.length := by omega
    have h2 : i ≤ cs.length - 1 := by omega
    push_cast [Nat.cast_sub h2, Nat.cast_sub h1]
    ring
  rw [hcast]
  ring_nf

/-- Witness for C4 with three children, `delayChildren = 1`, `staggerChildren = 2`,
child index 1. -/
theorem claim4_stagger_delay_formula_witness :
    ((animateChildren (some [10, 20, 30]) "v" 1 2 1 0)[1]?).map ChildCall.delay =
      some (1 + (1 : Rat) * 2) ∧
    ((animateChildren (some [10, 20, 30]) "v" 1 2 (-1) 0)[1]?).map ChildCall.delay =
      some (1 + ((((3 : Nat) : Rat) - 1) * 2 - (1 : Rat) * 2)) ∧
    ((animateChildren (some [10, 20, 30]) "v" 1 2 (-1) 0)[1]?).map ChildCall.delay =
      ((animateChildren (some [10, 20, 30]) "v" 1 2 1 0)[3 - 1 - 1]?).map ChildCall.delay :=
  claim4_stagger_delay_formula [10, 20, 30] "v" 1 2 0 1 (by decide)

/-- C9 counterexample: `setVariants` with an absent (undefined) argument does not replace
the stored mapping - the result still depends on the previous state (two controllers that
differ only in their stored variants stay different), so the call is not a wholesale
replacement with the supplied mapping. -/
theorem claim9_setVariants_undefined_counterexample :
    (setVariants { variants := [("a", Variant.obj {})] } none).variants ≠
      (setVariants { variants := [] } none).variants ∧
    (setVariants { variants := [("a", Variant.obj {})] } none).variants =
      [("a", Variant.obj {})] :=
  ⟨fun h => List.noConfusion h, rfl⟩

/-- C9 amended: `setVariants` with a present mapping replaces the stored variants
wholesale (never merged, and no other field is touched); with an absent/undefined
argument it leaves the whole state unchanged. -/
theorem claim9_setVariants_replaces_wholesale_when_present :
    ∀ (s : ControlsState) (v : List (String × Variant)),
      setVariants s (some v) = { s with variants := v } ∧ setVariants s none = s :=
  fun _ _ => ⟨rfl, rfl⟩

theorem lookupA_mergeA (k : String) :
    ∀ (b a : List (String × TValue)), (b.map Prod.fst).Nodup →
      lookupA (mergeA a b) k = (lookupA b k).or (lookupA a k) := by
  intro b
  induction b with
  | nil => intro a _; rfl
  | cons kv rest ih =>
    intro a hnd
    rw [List.map_cons, List.nodup_cons] at hnd
    unfold mergeA
    rw [List.foldl_cons]
    have hstep := ih (setA a kv.1 kv.2) hnd.2
    unfold mergeA at hstep
    rw [hstep]
    by_cases hk : kv.1 = k
    · subst hk
      have hrest : lookupA rest kv.1 = none := by
        cases hopt : lookupA rest kv.1 with
        | none => rfl
        | some w => exact absurd (mem_keys_of_lookupA _ _ _ hopt) hnd.1
      rw [hrest, lookupA_setA_self]
      rw [lookupA, if_pos rfl]
      rfl
    · rw [lookupA_setA_ne _ _ (fun he => hk he.symm)]
      rw [lookupA, if_neg hk]

/-- C10: `buildHTMLProps` returns the spread-merge of `reactStyle`, `style` and `vars`
as the style object (vars winning over style, style over reactStyle on key conflicts);
a truthy drag prop additionally sets `style.userSelect` to "none" and `draggable` to
false, while a falsy drag leaves the merge untouched and adds no draggable field. -/
theorem claim10_buildHTMLProps_merge_and_drag :
    ∀ (ve : HTMLVisualElement),
      (ve.style.map Prod.fst).Nodup → (ve.vars.map Prod.fst).Nodup →
      (buildHTMLProps ve false =
        { style := mergeA (mergeA ve.reactStyle ve.style) ve.vars, draggable := none } ∧
       buildHTMLProps ve true =
        { style := setA (mergeA (mergeA ve.reactStyle ve.style) ve.vars) "userSelect"
            (TValue.str "none"),
          draggable := some false }) ∧
      (∀ k, lookupA (buildHTMLProps ve false).style k =
        (lookupA ve.vars k).or ((lookupA ve.style k).or (lookupA ve.reactStyle k))) ∧
      lookupA (buildHTMLProps ve true).style "userSelect" = some (TValue.str "none") ∧
      (∀ k, k ≠ "userSelect" →
        lookupA (buildHTMLProps ve true).style k = lookupA (buildHTMLProps ve false).style k) := by
  intro ve hns hnv
  refine ⟨⟨rfl, rfl⟩, fun k => ?_, ?_, fun k hk => ?_⟩
  · show lookupA (mergeA (mergeA ve.reactStyle ve.style) ve.vars) k = _
    rw [lookupA_mergeA k ve.vars _ hnv, lookupA_mergeA k ve.style _ hns]
  · show lookupA (setA (mergeA (mergeA ve.reactStyle ve.style) ve.vars) "userSelect"
      (TValue.str "none")) "userSelect" = _
    rw [lookupA_setA_self]
  · show lookupA (setA (mergeA (mergeA ve.reactStyle ve.style) ve.vars) "userSelect"
      (TValue.str "none")) k = lookupA (mergeA (mergeA ve.reactStyle ve.style) ve.vars) k
    exact lookupA_setA_ne _ _ hk

/-- A concrete visual element used to witness C10. -/
def veW : HTMLVisualElement :=
  { reactStyle := [("color", TValue.str "red"), ("opacity", TValue.num 1)],
    style := [("opacity", TValue.num 2)],
    vars := [("opacity", TValue.num 3)] }

/-- Witness for C10 at a concrete element: no draggable without drag, vars win the
opacity conflict, drag sets userSelect and leaves other keys alone. -/
theorem claim10_buildHTMLProps_merge_and_drag_witness :
    (buildHTMLProps veW false).draggable = none ∧
    lookupA (buildHTMLProps veW false).style "opacity" =
      (lookupA veW.vars "opacity").or
        ((lookupA veW.style "opacity").or (lookupA veW.reactStyle "opacity")) ∧
    lookupA (buildHTMLProps veW true).style "userSelect" = some (TValue.str "none") ∧
    lookupA (buildHTMLProps veW true).style "color" =
      lookupA (buildHTMLProps veW false).style "color" := by
  have h := claim10_buildHTMLProps_merge_and_drag veW (by decide) (by decide)
  exact ⟨by rw [h.1.1], h.2.1 "opacity", h.2.2.1, h.2.2.2 "color" (by decide)⟩

/-- The controller state used in the C1 counterexample: override slot 1 occupied,
one tracked value. -/
def sC1 : ControlsState :=
  { values := [("x", TValue.num 1)], overrides := [none, some (.label "g")] }

/-- The definition started in the C1 counterexample: an explicit non-animatable target. -/
def dC1 : AnimationDefinition := .variantDef (.obj { target := [("x", TValue.str "b")] })

/-- C1 counterexample: with slot 1 occupied and `start` called without an explicit
priority (the request's priority defaults to 0), the source skips the priority guard
entirely (`opts.priority !== undefined && ...`): the call mutates the tracked value "x"
and changes the isAnimating set, contradicting the claim for this call. -/
theorem claim1_undefined_priority_counterexample :
    isHighestPriority sC1.overrides 0 = false ∧
    (start idExternals sC1 dC1 {}).1.values ≠ sC1.values ∧
    (start idExternals sC1 dC1 {}).1.isAnimating ≠ sC1.isAnimating := by
  refine ⟨rfl, ?_, ?_⟩ <;> decide

/-- C1 amended: when `opts.priority` is explicitly supplied and a slot strictly above it
is occupied, `start` records the definition at that priority and returns an
already-resolved result with no passes, leaving every other state field (values,
isAnimating, baseTarget, variants, props, defaultTransition) untouched. -/
theorem claim1_lower_priority_never_preempts_when_priority_supplied :
    ∀ (E : Externals) (s : ControlsState) (d : AnimationDefinition) (p : Nat)
      (dl : Option Rat),
      isHighestPriority s.overrides p = false →
      start E s d { delay := dl, priority := some p } =
        ({ s with overrides := setOverride s.overrides p (some d) }, []) := by
  intro E s d p dl h
  have hguard : ((some p : Option Nat)).isSome = true ∧
      isHighestPriority
        (setPriorityAnimation s d ((some p : Option Nat).getD 0)).overrides
        ((some p : Option Nat).getD 0) = false := by
    refine ⟨rfl, ?_⟩
    show isHighestPriority (setOverride s.overrides p (some d)) p = false
    rw [isHighestPriority_setOverride s.overrides p p (some d) (le_refl p)]
    exact h
  simp only [start]
  rw [if_pos hguard]
  rfl

/-- Witness for C1: starting at explicit priority 0 while slot 1 is occupied only
records the definition and returns no passes. -/
theorem claim1_lower_priority_never_preempts_witness :
    isHighestPriority sC1.overrides 0 = false ∧
    start idExternals sC1 dC1 { delay := none, priority := some 0 } =
      ({ sC1 with overrides := setOverride sC1.overrides 0 (some dC1) }, []) :=
  ⟨rfl, claim1_lower_priority_never_preempts_when_priority_supplied
    idExternals sC1 dC1 0 none rfl⟩

/-- C8: a variant that resolves with no target (an absent variant) makes `animate` return
its state unchanged with an immediately-resolved empty pass; consequently `start` of a
label with no matching variant mutates no tracked value, and its result is an empty
completion (no pending animations, no transitionEnd, settling changes nothing). -/
theorem claim8_no_target_is_noop :
    (∀ (E : Externals) (s : ControlsState) (v : Option Variant) (opts : AnimationOptions),
      (resolveVariant v none).target = none → animate E s v opts = (s, {})) ∧
    (∀ (E : Externals) (s : ControlsState) (l : String) (opts : AnimationOptions),
      lookupA s.variants l = none →
      (start E s (.label l) opts).1.values = s.values ∧
      (∀ p ∈ (start E s (.label l) opts).2, p.pending = [] ∧ p.transitionEnd = none) ∧
      settleAll (start E s (.label l) opts).1 (start E s (.label l) opts).2 =
        (start E s (.label l) opts).1) := by
  constructor
  · intro E s v opts h
    simp only [animate]
    rw [h]
  · intro E s l opts h
    simp only [start]
    by_cases hg : ((opts.priority.isSome = true) ∧
        isHighestPriority (setPriorityAnimation s (.label l) (opts.priority.getD 0)).overrides
          (opts.priority.getD 0) = false)
    · rw [if_pos hg]
      exact ⟨rfl, fun p hp => absurd hp (List.not_mem_nil p), rfl⟩
    · rw [if_neg hg]
      have h' : lookupA (resetIsAnimating
          (setPriorityAnimation s (.label l) (opts.priority.getD 0))).variants l = none := h
      simp only [animateVariant]
      rw [h']
      refine ⟨rfl, ?_, rfl⟩
      intro p hp
      rcases List.mem_singleton.mp hp with rfl
      exact ⟨rfl, rfl⟩

/-- Witness for C8: animating an absent variant and starting a label with no matching
variant both leave the tracked values untouched. -/
theorem claim8_no_target_is_noop_witness :
    animate idExternals { values := [("x", TValue.num 1)] } none {} =
      ({ values := [("x", TValue.num 1)] }, {}) ∧
    (start idExternals { values := [("x", TValue.num 1)] }
      (.label "missing") {}).1.values = [("x", TValue.num 1)] :=
  ⟨claim8_no_target_is_noop.1 idExternals { values := [("x", TValue.num 1)] } none {} rfl,
    (claim8_no_target_is_noop.2 idExternals { values := [("x", TValue.num 1)] }
      "missing" {} rfl).1⟩

/-- The resolver function used to exhibit C3's divergence: it returns target a=1 when
invoked with present props and a=2 when invoked with undefined. -/
def fC3 : Option PropsV → TargetAndTransition :=
  fun props =>
    match props with
    | some _ => { target := [("a", TValue.num 1)] }
    | none => { target := [("a", TValue.num 2)] }

/-- The controller state for C3: props are set and "a" is tracked. -/
def sC3 : ControlsState :=
  { props := some [("p", TValue.num 5)], values := [("a", TValue.num 0)] }

/-- C3, code evaluated at the failing input: `animate` resolves its definition with
`resolveVariant(animationDefinition)` - no props argument (source lines 217-219) - so a
resolver-function variant observes undefined props and the pass records target 2 into
the base target, although resolution with the controller's current props (which the
claim describes, and which `applyVariantLabels` at source lines 158-162 actually
performs) would yield target 1. -/
theorem claim3_animate_resolves_without_props :
    resolveVariant (some (.resolver fC3)) sC3.props ≠
      resolveVariant (some (.resolver fC3)) none ∧
    (resolveVariant (some (.resolver fC3)) sC3.props).target = some [("a", TValue.num 1)] ∧
    (animate idExternals sC3 (some (.resolver fC3)) {}).1.baseTarget =
      [("a", TValue.num 2)] := by
  refine ⟨by decide, rfl, by decide⟩

/-- The controller state for the C5 scenario: opacity tracked at 1, the spec's
visible/hidden variants stored. -/
def sHidden : ControlsState :=
  { values := [("opacity", TValue.num 1)],
    variants := [("visible", .obj { target := [("opacity", TValue.num 1)] }),
                 ("hidden", .obj { target := [("opacity", TValue.num 0)],
                                   transitionEnd := some [("display", TValue.str "none")] })] }

/-- The pass produced by `start("hidden")` on `sHidden`. -/
def passHidden : AnimatePassInfo :=
  { pending := [{ key := "opacity", valueTarget := TValue.num 0,
                  options := { delay := some 0 } }],
    transitionEnd := some [("display", TValue.str "none")] }

/-- C5: in the deferred phase of any pass, every transitionEnd assignment event comes
strictly after every per-property completion event, for every completion order the
external scheduler chooses, and every pending animation of the pass does settle in that
phase; in the spec's scenario, `start("hidden")` hands opacity to the value control
without touching display synchronously, and display becomes "none" in the settling
phase, after opacity's completion event. -/
theorem claim5_transitionEnd_after_all_settle :
    (∀ (p : AnimatePassInfo) (completions : List PendingAnim) (i j : Nat)
        (k k' : String) (v : TValue),
      (passTimeline p completions)[i]? = some (PassEvent.settled k) →
      (passTimeline p completions)[j]? = some (PassEvent.assignEnd k' v) →
      i < j) ∧
    (∀ (p : AnimatePassInfo) (completions : List PendingAnim),
      completions.Perm p.pending →
      ∀ a ∈ p.pending, PassEvent.settled a.key ∈ passTimeline p completions) ∧
    ((start idExternals sHidden (.label "hidden") {}).2 = [passHidden] ∧
     lookupA (start idExternals sHidden (.label "hidden") {}).1.values "display" = none ∧
     passTimeline passHidden passHidden.pending =
       [PassEvent.settled "opacity", PassEvent.assignEnd "display" (TValue.str "none")] ∧
     lookupA (settleAll (start idExternals sHidden (.label "hidden") {}).1
        (start idExternals sHidden (.label "hidden") {}).2).values "display" =
       some (TValue.str "none") ∧
     lookupA (settleAll (start idExternals sHidden (.label "hidden") {}).1
        (start idExternals sHidden (.label "hidden") {}).2).values "opacity" =
       some (TValue.num 0)) := by
  refine ⟨?_, ?_, by decide, by decide, by decide, by decide, by decide⟩
  · intro p completions i j k k' v hi hj
    unfold passTimeline at hi hj
    have hjlen : (completions.map (fun a => PassEvent.settled a.key)).length ≤ j := by
      by_contra hlt
      push_neg at hlt
      rw [List.getElem?_append, if_pos hlt, List.getElem?_map] at hj
      cases hc : completions[j]? with
      | none => rw [hc] at hj; cases hj
      | some a =>
        rw [hc] at hj
        cases hj
    have hilen : i < (completions.map (fun a => PassEvent.settled a.key)).length := by
      by_contra hge
      push_neg at hge
      rw [List.getElem?_append, if_neg (by omega)] at hi
      cases hte : p.transitionEnd with
      | none => rw [hte] at hi; cases hi
      | some te =>
        rw [hte, List.getElem?_map] at hi
        cases hc : te[i - (completions.map (fun a => PassEvent.settled a.key)).length]? with
        | none => rw [hc] at hi; cases hi
        | some kv =>
          rw [hc] at hi
          cases hi
    omega
  · intro p completions hperm a ha
    unfold passTimeline
    exact List.mem_append_left _
      (List.mem_map.mpr ⟨a, hperm.mem_iff.mpr ha, rfl⟩)

/-- Witness for C5 at the scenario pass: in the unique completion order, the settled
event sits strictly before the assignEnd event, and the pending opacity animation does
settle. -/
theorem claim5_transitionEnd_after_all_settle_witness :
    (0 : Nat) < 1 ∧
    PassEvent.settled "opacity" ∈ passTimeline passHidden passHidden.pending :=
  ⟨claim5_transitionEnd_after_all_settle.1 passHidden passHidden.pending 0 1
      "opacity" "display" (TValue.str "none") (by decide) (by decide),
    claim5_transitionEnd_after_all_settle.2.1 passHidden passHidden.pending
      (List.Perm.refl _)
      { key := "opacity", valueTarget := TValue.num 0, options := { delay := some 0 } }
      (by decide)⟩

/-- C7: in a pass run at priority 0, every target property that the reduce processes
(first binding in the converted target, not already mid-animation, with a tracked value)
has its resolved target value recorded as the new base-target resting value; hence after
two sequential priority-0 `start` calls with overlapping keys the base target holds the
second call's resolved values. -/
theorem claim7_priority0_records_base_target :
    (∀ (E : Externals) (s : ControlsState) (v : Variant) (opts : AnimationOptions)
        (t0 : Target) (tr0 : Option Transition) (te0 : Option Target) (k : String)
        (val : TValue),
      resolveVariant (some v) none =
        { target := some t0, transition := tr0, transitionEnd := te0 } →
      opts.priority.getD 0 = 0 →
      lookupA (E.unitConversion (checkForNewValues E s t0).values t0 te0).1 k = some val →
      k ∉ s.isAnimating →
      (k ∈ t0.map Prod.fst ∨ (lookupA s.values k).isSome = true) →
      lookupA (animate E s (some v) opts).1.baseTarget k = some val) ∧
    (start idExternals
        (start idExternals { values := [("x", TValue.num 0)] }
          (.variantDef (.obj { target := [("x", TValue.num 5)] })) {}).1
        (.variantDef (.obj { target := [("x", TValue.num 9)] })) {}).1.baseTarget =
      [("x", TValue.num 9)] := by
  refine ⟨?_, by decide⟩
  intro E s v opts t0 tr0 te0 k val hres hpr hlk hka hvs
  have hka' : k ∉ (checkForNewValues E s t0).isAnimating := by
    rw [checkForNewValues_isAnimating]
    exact hka
  have hvs' : lookupA (checkForNewValues E s t0).values k ≠ none := by
    have hs := isSome_values_checkForNewValues E s t0 k hvs
    intro hnone
    rw [hnone] at hs
    cases hs
  cases tr0 with
  | none =>
    have hfold := animFold_process E (opts.delay.getD 0) (opts.priority.getD 0)
      ((checkForNewValues E s t0).defaultTransition) k val
      (E.unitConversion (checkForNewValues E s t0).values t0 te0).1
      (checkForNewValues E s t0) [] hlk hka' hvs'
    simp only [animate]
    rw [hres]
    exact hfold.1.1 hpr
  | some t =>
    have hfold := animFold_process E (opts.delay.getD 0) (opts.priority.getD 0)
      (some t) k val
      (E.unitConversion (checkForNewValues E s t0).values t0 te0).1
      (checkForNewValues E s t0) [] hlk hka' hvs'
    simp only [animate]
    rw [hres]
    exact hfold.1.1 hpr

/-- The controller state for the C2 counterexample: three occupied override slots, a
tracked value away from its base. -/
def sC2 : ControlsState :=
  { overrides := [some (.label "a"), some (.label "b"), some (.label "c")],
    values := [("x", TValue.num 7)], baseTarget := [("x", TValue.num 0)],
    isAnimating := ["x"] }

/-- C2 counterexample: clearing the set slot 1 while the strictly higher slot 2 remains
occupied returns immediately - no animation pass runs and no value moves toward the base
target - contradicting "in every cleared-slot case re-applies the base target
afterward". -/
theorem claim2_clearOverride_counterexample :
    (sC2.overrides.getD 1 none).isSome = true ∧
    (clearOverride idExternals sC2 1).2 = [] ∧
    (clearOverride idExternals sC2 1).1.values = sC2.values ∧
    lookupA sC2.values "x" ≠ lookupA sC2.baseTarget "x" := by
  refine ⟨rfl, rfl, rfl, by decide⟩

/-- C2 amended: `clearOverride(i)` on an unset slot leaves all state unchanged; on a set
(truthy) slot it unsets the slot and clears the isAnimating set, and then (1) when a
strictly higher override remains occupied it returns without re-starting anything and
without re-applying the base target, while (2) when the remaining highest priority is at
most `i` it re-starts the highest remaining override (when occupied) at that priority
and afterwards animates toward the base target - so that, when no override remains and
unit conversion is the identity, every base-target property settles back to its
priority-0 base value. -/
theorem claim2_clearOverride_behaviour :
    (∀ (E : Externals) (s : ControlsState) (i : Nat),
      s.overrides.getD i none = none → clearOverride E s i = (s, [])) ∧
    (∀ (E : Externals) (s : ControlsState) (i : Nat) (d : AnimationDefinition),
      s.overrides.getD i none = some d → truthyDef d = true →
      i < getHighestPriority (setOverride s.overrides i none) →
      clearOverride E s i =
        ({ s with overrides := setOverride s.overrides i none, isAnimating := [] }, [])) ∧
    (∀ (E : Externals) (s : ControlsState) (i : Nat) (d : AnimationDefinition),
      s.overrides.getD i none = some d → truthyDef d = true →
      ¬ i < getHighestPriority (setOverride s.overrides i none) →
      clearOverride E s i =
        (let s2 : ControlsState :=
          { s with overrides := setOverride s.overrides i none, isAnimating := [] }
         let r1 :=
          match (setOverride s.overrides i none).getD
              (getHighestPriority (setOverride s.overrides i none)) none with
          | some ho =>
            if truthyDef ho then
              start E s2 ho
                { priority := some (getHighestPriority (setOverride s.overrides i none)) }
            else (s2, [])
          | none => (s2, [])
         let r2 := animate E r1.1 (some (.obj { target := r1.1.baseTarget })) {}
         (r2.1, r1.2 ++ [r2.2]))) ∧
    (∀ (E : Externals) (s : ControlsState) (i : Nat) (d : AnimationDefinition)
        (k : String) (v : TValue),
      E.unitConversion = (fun _ t te => (t, te)) →
      s.overrides.getD i none = some d → truthyDef d = true →
      (∀ j, (setOverride s.overrides i none).getD j none = none) →
      lookupA s.baseTarget k = some v →
      lookupA (settleAll (clearOverride E s i).1 (clearOverride E s i).2).values k =
        some v) := by
  refine ⟨?_, ?_, ?_, ?_⟩
  · intro E s i h
    unfold clearOverride
    rw [h]
  · intro E s i d hslot ht hlt
    unfold clearOverride
    rw [hslot]
    dsimp only
    rw [if_neg (show ¬truthyDef d = false by simp [ht])]
    rw [if_pos hlt]
    rfl
  · intro E s i d hslot ht hnlt
    unfold clearOverride
    rw [hslot]
    dsimp only
    rw [if_neg (show ¬truthyDef d = false by simp [ht])]
    rw [if_neg hnlt]
    rfl
  · intro E s i d k v hE hslot htruthy hall hbase
    cases E with
    | mk ct uc dg =>
      dsimp only at hE
      subst hE
      have hhigh : getHighestPriority (setOverride s.overrides i none) = 0 :=
        getHighestPriority_eq_zero _ hall
      have hco : clearOverride ⟨ct, fun _ t te => (t, te), dg⟩ s i =
          ((animate ⟨ct, fun _ t te => (t, te), dg⟩
              { s with overrides := setOverride s.overrides i none, isAnimating := [] }
              (some (.obj { target := s.baseTarget })) {}).1,
           [(animate ⟨ct, fun _ t te => (t, te), dg⟩
              { s with overrides := setOverride s.overrides i none, isAnimating := [] }
              (some (.obj { target := s.baseTarget })) {}).2]) := by
        unfold clearOverride
        rw [hslot]
        dsimp only
        rw [if_neg (show ¬truthyDef d = false by simp [htruthy])]
        rw [hhigh]
        rw [if_neg (Nat.not_lt_zero i)]
        rw [hall 0]
        rfl
      rw [hco]
      have hka' : k ∉ (checkForNewValues ⟨ct, fun _ t te => (t, te), dg⟩
          { s with overrides := setOverride s.overrides i none, isAnimating := [] }
          s.baseTarget).isAnimating := by
        rw [checkForNewValues_isAnimating]
        exact List.not_mem_nil k
      have hvs' : lookupA (checkForNewValues ⟨ct, fun _ t te => (t, te), dg⟩
          { s with overrides := setOverride s.overrides i none, isAnimating := [] }
          s.baseTarget).values k ≠ none := by
        have hs := isSome_values_checkForNewValues ⟨ct, fun _ t te => (t, te), dg⟩
          { s with overrides := setOverride s.overrides i none, isAnimating := [] }
          s.baseTarget k (Or.inl (mem_keys_of_lookupA _ _ _ hbase))
        intro hnone
        rw [hnone] at hs
        cases hs
      have hfold := animFold_process ⟨ct, fun _ t te => (t, te), dg⟩ 0 0
        (checkForNewValues ⟨ct, fun _ t te => (t, te), dg⟩
          { s with overrides := setOverride s.overrides i none, isAnimating := [] }
          s.baseTarget).defaultTransition k v s.baseTarget
        (checkForNewValues ⟨ct, fun _ t te => (t, te), dg⟩
          { s with overrides := setOverride s.overrides i none, isAnimating := [] }
          s.baseTarget) [] hbase hka' hvs'
      show lookupA (settleAnims
          (s.baseTarget.foldl (animReduce ⟨ct, fun _ t te => (t, te), dg⟩ 0 0
            (checkForNewValues ⟨ct, fun _ t te => (t, te), dg⟩
              { s with overrides := setOverride s.overrides i none, isAnimating := [] }
              s.baseTarget).defaultTransition)
            (checkForNewValues ⟨ct, fun _ t te => (t, te), dg⟩
              { s with overrides := setOverride s.overrides i none, isAnimating := [] }
              s.baseTarget, [])).1
          (s.baseTarget.foldl (animReduce ⟨ct, fun _ t te => (t, te), dg⟩ 0 0
            (checkForNewValues ⟨ct, fun _ t te => (t, te), dg⟩
              { s with overrides := setOverride s.overrides i none, isAnimating := [] }
              s.baseTarget).defaultTransition)
            (checkForNewValues ⟨ct, fun _ t te => (t, te), dg⟩
              { s with overrides := setOverride s.overrides i none, isAnimating := [] }
              s.baseTarget, [])).2).values k = some v
      cases han : isAnimatable ⟨ct, fun _ t te => (t, te), dg⟩ v with
      | true =>
        have hfil := (hfold.1.2 han).1
        rw [List.filter_nil, List.nil_append] at hfil
        exact settleAnims_values_of_filter_single k _ _ _ hfil
      | false =>
        have hfil := (hfold.2 han).1
        rw [List.filter_nil] at hfil
        have hnok : ∀ a ∈ (s.baseTarget.foldl (animReduce ⟨ct, fun _ t te => (t, te), dg⟩ 0 0
            (checkForNewValues ⟨ct, fun _ t te => (t, te), dg⟩
              { s with overrides := setOverride s.overrides i none, isAnimating := [] }
              s.baseTarget).defaultTransition)
            (checkForNewValues ⟨ct, fun _ t te => (t, te), dg⟩
              { s with overrides := setOverride s.overrides i none, isAnimating := [] }
              s.baseTarget, [])).2, a.key ≠ k := by
          intro a ha hak
          have hmem := List.filter_eq_nil_iff.mp hfil a ha
          simp [hak] at hmem
        rw [settleAnims_values_of_no_key k _ _ hnok]
        exact (hfold.2 han).2

/-- The controller state for the C2 revert witness: only slot 1 occupied, "x" away from
its base value 0. -/
def sW2d : ControlsState :=
  { overrides := [none, some (.label "b")],
    values := [("x", TValue.num 7)], baseTarget := [("x", TValue.num 0)],
    isAnimating := ["x"] }

/-- Witness for C2: an out-of-range clear is a no-op; clearing slot 1 of `sC2` (slot 2
still occupied) only unsets the slot and clears isAnimating; clearing the only override
of `sW2d` re-applies the base target so "x" settles back to 0. -/
theorem claim2_clearOverride_behaviour_witness :
    clearOverride idExternals { overrides := [some (.label "a")] } 5 =
      ({ overrides := [some (.label "a")] }, []) ∧
    clearOverride idExternals sC2 1 =
      ({ sC2 with overrides := setOverride sC2.overrides 1 none, isAnimating := [] }, []) ∧
    lookupA (settleAll (clearOverride idExternals sW2d 1).1
      (clearOverride idExternals sW2d 1).2).values "x" = some (TValue.num 0) :=
  ⟨claim2_clearOverride_behaviour.1 idExternals { overrides := [some (.label "a")] } 5 rfl,
    claim2_clearOverride_behaviour.2.1 idExternals sC2 1 (.label "b") rfl rfl (by decide),
    claim2_clearOverride_behaviour.2.2.2 idExternals sW2d 1 (.label "b") "x" (TValue.num 0)
      rfl rfl rfl (by intro j; rcases j with _ | _ | j <;> rfl) rfl⟩

/-- Witness for C7: a priority-0 `animate` pass on a fresh controller records the target
value of "x" as its base-target resting value. -/
theorem claim7_priority0_records_base_target_witness :
    lookupA (animate idExternals { values := [("x", TValue.num 0)] }
      (some (.obj { target := [("x", TValue.num 5)] })) {}).1.baseTarget "x" =
      some (TValue.num 5) :=
  claim7_priority0_records_base_target.1 idExternals { values := [("x", TValue.num 0)] }
    (.obj { target := [("x", TValue.num 5)] }) {} [("x", TValue.num 5)] none none
    "x" (TValue.num 5) rfl rfl (by decide) (by decide) (Or.inl (by decide))

end Motion
